import Mathlib

/-!
Shallow embedding of the `path` crate (IP based connection identification and
tracing): flow identifier canonicalization, the LRU plus TTL tracking table
and its `track` operation, and the error taxonomy, together with proofs of
the specified properties.  The linked hash map of the table is embedded as an
association list kept in recency order: the head is the least recently used
entry, the back is the most recently used one.
-/

namespace ConnTrack

/-- Modulus of the 64-bit unsigned machine integers used by the crate
(`u64` packet counters and nanosecond timestamps). -/
def U64MOD : Nat := 2 ^ 64

/-- Embeds `std::net::IpAddr`: a V4 address holds four octets, a V6 address
holds eight 16-bit segments. -/
inductive IpAddr where
  | v4 (a b c d : Nat)
  | v6 (a b c d e f g h : Nat)
deriving DecidableEq

/-- Strict lexicographic comparison on lists of naturals; embeds the derived
component-wise comparison Rust uses on the address parts. -/
def natLexLt : List Nat → List Nat → Bool
  | [], [] => false
  | [], _ :: _ => true
  | _ :: _, [] => false
  | x :: xs, y :: ys => decide (x < y) || (decide (x = y) && natLexLt xs ys)

/-- Embeds the derived `Ord` on `std::net::IpAddr`: every V4 address is
smaller than every V6 address, and within one family the components are
compared lexicographically. -/
def IpAddr.ltb : IpAddr → IpAddr → Bool
  | .v4 _ _ _ _, .v6 _ _ _ _ _ _ _ _ => true
  | .v6 _ _ _ _ _ _ _ _, .v4 _ _ _ _ => false
  | .v4 a b c d, .v4 a2 b2 c2 d2 => natLexLt [a, b, c, d] [a2, b2, c2, d2]
  | .v6 a b c d e f g h, .v6 a2 b2 c2 d2 e2 f2 g2 h2 =>
      natLexLt [a, b, c, d, e, f, g, h] [a2, b2, c2, d2, e2, f2, g2, h2]

/-- Embeds the derived lexicographic `<` on the Rust tuple
`(IpAddr, u16)`. -/
def tupleLt (x y : IpAddr × Nat) : Bool :=
  IpAddr.ltb x.1 y.1 || (decide (x.1 = y.1) && decide (x.2 < y.2))

/-- Embeds `>` on `(IpAddr, u16)` tuples, used by `Identifier::new`. -/
def tupleGt (x y : IpAddr × Nat) : Bool :=
  tupleLt y x

/-- Embeds `Subscriber`: one endpoint of a connection. -/
structure Subscriber where
  address : IpAddr
  port : Nat
deriving DecidableEq

/-- Embeds `Identifier<K>`: the canonical connection key. -/
structure Identifier (K : Type) where
  lower : Subscriber
  greater : Subscriber
  key : K
deriving DecidableEq

/-- Embeds `Identifier::new`: the smaller of the two (address, port) tuples
becomes `lower`, the other becomes `greater`, the key is kept unchanged. -/
def Identifier.new {K : Type} (source_ip : IpAddr) (source_port : Nat)
    (destination_ip : IpAddr) (destination_port : Nat) (key : K) : Identifier K :=
  let source_tuple := (source_ip, source_port)
  let destination_tuple := (destination_ip, destination_port)
  let connection_tuple :=
    if tupleGt source_tuple destination_tuple then (destination_tuple, source_tuple)
    else (source_tuple, destination_tuple)
  { lower := { address := connection_tuple.1.1, port := connection_tuple.1.2 },
    greater := { address := connection_tuple.2.1, port := connection_tuple.2.2 },
    key := key }

/-- Embeds a foreign error source (a boxed Rust `Error` trait object),
reduced to its human readable description. -/
structure ForeignError where
  description : String
deriving DecidableEq

/-- Embeds `ErrorType` from `src/src/error.rs`.  The first three variants are
declared there.  The `Other` variant is modelled from the spec and from
`tests/error.rs`, which use an adapter kind for foreign errors that is
absent from `src/src/error.rs`. -/
inductive ErrorType where
  | PacketCounterOverflow
  | Timeout
  | Internal
  | Other
deriving DecidableEq

/-- Embeds `PathError`: an error code, a description, and an optional
cause. -/
structure PathError where
  code : ErrorType
  description : String
  cause : Option ForeignError
deriving DecidableEq

/-- Embeds `error::bail`, which builds a `PathError` with no cause. -/
def bail (code : ErrorType) (description : String) : PathError :=
  { code := code, description := description, cause := none }

/-- Modelled from the spec: the foreign error adapter (the `From`
conversions exercised by `tests/error.rs`, absent from `src/src/error.rs`)
tags the converted error `Other` and carries the foreign description plus
the original error as the cause. -/
def PathError.fromForeign (e : ForeignError) : PathError :=
  { code := ErrorType.Other, description := e.description, cause := some e }

/-- Embeds `Data<C>`: the per-connection record. -/
structure Data (C : Type) where
  custom : Option C
  packet_counter : Nat
  timestamp : Nat
deriving DecidableEq

/-- Embeds `Data::new`.  The source reads the monotonic clock itself
(`timestamp: precise_time_ns()`), so the clock reading is taken as the
argument. -/
def Data.new {C : Type} (now : Nat) : Data C :=
  { packet_counter := 1, timestamp := now, custom := none }

/-- Embeds `Path<K, C>`: the tracking table.  The linked hash map is an
association list in recency order (head least recently used, back most
recently used); the timeout is a signed nanosecond count (`time::Duration`)
and `max_connections` a `u64`. -/
structure Path (K C : Type) where
  hashmap : List (Identifier K × Data C)
  timeout : Int
  max_connections : Nat
deriving DecidableEq

/-- Embeds `Path::new`: timeout of 10 minutes (in nanoseconds) and at most
one million connections. -/
def Path.new (K C : Type) : Path K C :=
  { hashmap := [], timeout := 600000000000, max_connections := 1000000 }

/-- Embeds `Connection<K, C>`: a view pairing an identifier with its
record. -/
structure Connection (K C : Type) where
  identifier : Identifier K
  data : Data C
deriving DecidableEq

/-- Lookup in the recency list, embedding `LinkedHashMap` key lookup. -/
def mapGet {K C : Type} [DecidableEq K] :
    List (Identifier K × Data C) → Identifier K → Option (Data C)
  | [], _ => none
  | e :: rest, id => if e.1 = id then some e.2 else mapGet rest id

/-- Removes the first entry carrying the given identifier, embedding
`LinkedHashMap::remove` on the recency list. -/
def mapErase {K C : Type} [DecidableEq K] :
    List (Identifier K × Data C) → Identifier K → List (Identifier K × Data C)
  | [], _ => []
  | e :: rest, id => if e.1 = id then rest else e :: mapErase rest id

/-- Embeds the elapsed time computation of `track`:
`Duration::nanoseconds((now - data.timestamp) as i64)`.  The subtraction is
64-bit wrapping subtraction and the cast reinterprets the 64-bit result as a
signed value; the outcome is the signed nanosecond count compared against
the timeout. -/
def elapsedNs (now ts : Nat) : Int :=
  if (now + U64MOD - ts) % U64MOD < 2 ^ 63 then (((now + U64MOD - ts) % U64MOD : Nat) : Int)
  else (((now + U64MOD - ts) % U64MOD : Nat) : Int) - (U64MOD : Int)

/-- Embeds `u64::checked_add`. -/
def checkedAdd (a b : Nat) : Option Nat :=
  if a + b < U64MOD then some (a + b) else none

/-- Embeds `Path::last_mut`: the most recently used entry, i.e. the back of
the recency list, as a `Connection`. -/
def last_mut {K C : Type} (p : Path K C) : Option (Connection K C) :=
  p.hashmap.getLast?.map fun e => Connection.mk e.1 e.2

/-- Embeds `Path::connection_count`. -/
def connection_count {K C : Type} (p : Path K C) : Nat :=
  p.hashmap.length

/-- Embeds `Path::track`.  The two clock readings of the source are passed
as arguments: `now` is the reading taken at the top of `track`
(`precise_time_ns()`), `now2` the reading taken inside `Data::new` on the
fresh-insert path.  `get_refresh` is embedded as a lookup followed by a move
of the entry to the back of the recency list; the final
`Ok(self.last_mut().unwrap())` of the source is embedded by returning the
`last_mut` option as the success payload. -/
def track {K C : Type} [DecidableEq K] (p : Path K C) (identifier : Identifier K)
    (now now2 : Nat) : Except PathError (Option (Connection K C)) × Path K C :=
  match mapGet p.hashmap identifier with
  | some data =>
      if elapsedNs now data.timestamp ≤ p.timeout then
        match checkedAdd data.packet_counter 1 with
        | some value =>
            let d2 : Data C := { data with packet_counter := value, timestamp := now }
            let p2 : Path K C := { p with hashmap := mapErase p.hashmap identifier ++ [(identifier, d2)] }
            (Except.ok (last_mut p2), p2)
        | none =>
            (Except.error (bail ErrorType.PacketCounterOverflow "Packet counter overflow"),
             { p with hashmap := mapErase p.hashmap identifier ++ [(identifier, data)] })
      else
        (Except.error (bail ErrorType.Timeout "Connection removed because of timeout"),
         { p with hashmap := mapErase (mapErase p.hashmap identifier ++ [(identifier, data)]) identifier })
  | none =>
      let evicted := if p.max_connections > 0 ∧ p.hashmap.length ≥ p.max_connections
                     then p.hashmap.drop 1 else p.hashmap
      let p2 : Path K C := { p with hashmap := evicted ++ [(identifier, Data.new now2)] }
      (Except.ok (last_mut p2), p2)

/-- Runs `track` repeatedly for one identifier with both clock readings
fixed at `now`, starting from table `p`. -/
def trackIter {K C : Type} [DecidableEq K] (p : Path K C) (identifier : Identifier K)
    (now : Nat) : Nat → Path K C
  | 0 => p
  | n + 1 => (track (trackIter p identifier now n) identifier now now).2

/-- Age test of the spec: a record expired when its age exceeds the
timeout. -/
def isExpired {C : Type} (timeout : Int) (now : Nat) (d : Data C) : Bool :=
  decide ((now : Int) - (d.timestamp : Int) > timeout)

/-- Modelled from the spec: the scan performed by `TrackingTable.flush`,
whose body is absent from `src/src/lib.rs` (only `tests/lib.rs` exercises
`path.flush()`).  Following the spec wording, the scan removes and collects
every entry whose age `now - record.timestamp` exceeds the timeout. -/
def flushScan {K C : Type} (timeout : Int) (now : Nat) :
    List (Identifier K × Data C) → List (Identifier K × Data C) × List (Identifier K × Data C)
  | [] => ([], [])
  | e :: rest =>
      let r := flushScan timeout now rest
      if (now : Int) - (e.2.timestamp : Int) > timeout then (e :: r.1, r.2) else (r.1, e :: r.2)

/-- Modelled from the spec: `TrackingTable.flush`, absent from
`src/src/lib.rs`; removes every expired entry and returns the removed
pairs. -/
def flush {K C : Type} (p : Path K C) (now : Nat) :
    List (Identifier K × Data C) × Path K C :=
  let r := flushScan p.timeout now p.hashmap
  (r.1, { p with hashmap := r.2 })

/-- Concrete identifier used by the concrete instances below, mirroring the
doc example of the crate. -/
def exId : Identifier Nat :=
  Identifier.new (IpAddr.v4 10 0 0 1) 1234 (IpAddr.v4 10 0 0 2) 443 6

/-- A second, distinct concrete identifier. -/
def exId2 : Identifier Nat :=
  Identifier.new (IpAddr.v4 10 0 0 3) 80 (IpAddr.v4 10 0 0 2) 443 6

/-- Concrete table holding one record whose packet counter sits at the
largest `u64` value. -/
def overPath : Path Nat Nat :=
  { hashmap := [(exId, Data.mk none (U64MOD - 1) 100)],
    timeout := 600000000000, max_connections := 1000000 }

/-- Concrete table holding one record stamped in the future of the clock
reading used against it. -/
def skewPath : Path Nat Nat :=
  { hashmap := [(exId, Data.mk none 1 100)],
    timeout := 600000000000, max_connections := 1000000 }

/-- Concrete table holding one fresh in-window record. -/
def w2Path : Path Nat Nat :=
  { hashmap := [(exId, Data.mk none 1 100)],
    timeout := 600000000000, max_connections := 1000000 }

/-- Concrete table holding one record stamped at time zero, expired for
clock readings past the timeout. -/
def w4Path : Path Nat Nat :=
  { hashmap := [(exId, Data.mk none 3 0)],
    timeout := 600000000000, max_connections := 1000000 }

/-- Concrete table with capacity one, already holding one entry. -/
def w6Path : Path Nat Nat :=
  { hashmap := [(exId2, Data.mk none 1 0)],
    timeout := 600000000000, max_connections := 1 }

lemma getLast?_append_one {α : Type} (l : List α) (a : α) :
    (l ++ [a]).getLast? = some a := by
  rw [List.getLast?_append_cons]
  rfl

lemma mem_keys_of_mapGet {K C : Type} [DecidableEq K]
    {l : List (Identifier K × Data C)} {id : Identifier K} {d : Data C}
    (h : mapGet l id = some d) : id ∈ l.map Prod.fst := by
  induction l with
  | nil => simp [mapGet] at h
  | cons e rest ih =>
      by_cases he : e.1 = id
      · simp [he]
      · simp only [mapGet, if_neg he] at h
        simp [ih h]

lemma mapGet_eq_none_of_not_mem {K C : Type} [DecidableEq K]
    {l : List (Identifier K × Data C)} {id : Identifier K}
    (h : id ∉ l.map Prod.fst) : mapGet l id = none := by
  induction l with
  | nil => rfl
  | cons e rest ih =>
      simp only [List.map_cons, List.mem_cons, not_or] at h
      obtain ⟨h1, h2⟩ := h
      simp only [mapGet, if_neg (Ne.symm h1)]
      exact ih h2

lemma length_mapErase {K C : Type} [DecidableEq K]
    {l : List (Identifier K × Data C)} {id : Identifier K}
    (h : id ∈ l.map Prod.fst) : (mapErase l id).length + 1 = l.length := by
  induction l with
  | nil => simp at h
  | cons e rest ih =>
      by_cases he : e.1 = id
      · simp [mapErase, he]
      · simp only [List.map_cons, List.mem_cons] at h
        rcases h with h | h
        · exact absurd h.symm he
        · have := ih h
          simp only [mapErase, if_neg he, List.length_cons]
          omega

lemma not_mem_keys_mapErase {K C : Type} [DecidableEq K]
    {l : List (Identifier K × Data C)} {id : Identifier K}
    (h : (l.map Prod.fst).Nodup) : id ∉ (mapErase l id).map Prod.fst := by
  induction l with
  | nil => simp [mapErase]
  | cons e rest ih =>
      simp only [List.map_cons, List.nodup_cons] at h
      obtain ⟨h1, h2⟩ := h
      by_cases he : e.1 = id
      · simp only [mapErase, if_pos he]
        exact he ▸ h1
      · simp only [mapErase, if_neg he, List.map_cons, List.mem_cons, not_or]
        exact ⟨fun hx => he hx.symm, ih h2⟩

lemma mapErase_append_one {K C : Type} [DecidableEq K]
    {l : List (Identifier K × Data C)} {id : Identifier K} (d : Data C)
    (h : id ∉ l.map Prod.fst) : mapErase (l ++ [(id, d)]) id = l := by
  induction l with
  | nil => simp [mapErase]
  | cons e rest ih =>
      simp only [List.map_cons, List.mem_cons, not_or] at h
      obtain ⟨h1, h2⟩ := h
      simp only [List.cons_append, mapErase, if_neg (Ne.symm h1)]
      exact congrArg (List.cons e) (ih h2)

lemma mapGet_append_one {K C : Type} [DecidableEq K]
    {l : List (Identifier K × Data C)} {id : Identifier K} (d : Data C)
    (h : id ∉ l.map Prod.fst) : mapGet (l ++ [(id, d)]) id = some d := by
  induction l with
  | nil => simp [mapGet]
  | cons e rest ih =>
      simp only [List.map_cons, List.mem_cons, not_or] at h
      obtain ⟨h1, h2⟩ := h
      simp only [List.cons_append, mapGet, if_neg (Ne.symm h1)]
      exact ih h2

lemma u64mod_val : U64MOD = 18446744073709551616 := by
  norm_num [U64MOD]

lemma elapsedNs_eq_sub (now ts : Nat) (hle : ts ≤ now) (hrep : now - ts < 2 ^ 63) :
    elapsedNs now ts = ((now - ts : Nat) : Int) := by
  have h63 : (2 : Nat) ^ 63 = 9223372036854775808 := by norm_num
  rw [h63] at hrep
  have hmod : (now + U64MOD - ts) % U64MOD = now - ts := by
    rw [u64mod_val]
    omega
  unfold elapsedNs
  rw [hmod, h63, if_pos hrep]

lemma track_refresh_eq {K C : Type} [DecidableEq K] (p : Path K C) (id : Identifier K)
    (now now2 : Nat) (d : Data C)
    (hget : mapGet p.hashmap id = some d)
    (hwin : elapsedNs now d.timestamp ≤ p.timeout)
    (hcnt : d.packet_counter + 1 < U64MOD) :
    track p id now now2 =
      (Except.ok (some (Connection.mk id (Data.mk d.custom (d.packet_counter + 1) now))),
       { p with hashmap :=
           mapErase p.hashmap id ++ [(id, Data.mk d.custom (d.packet_counter + 1) now)] }) := by
  simp [track, hget, checkedAdd, hwin, hcnt, last_mut, getLast?_append_one]

lemma track_overflow_eq {K C : Type} [DecidableEq K] (p : Path K C) (id : Identifier K)
    (now now2 : Nat) (d : Data C)
    (hget : mapGet p.hashmap id = some d)
    (hwin : elapsedNs now d.timestamp ≤ p.timeout)
    (hcnt : ¬ d.packet_counter + 1 < U64MOD) :
    track p id now now2 =
      (Except.error (bail ErrorType.PacketCounterOverflow "Packet counter overflow"),
       { p with hashmap := mapErase p.hashmap id ++ [(id, d)] }) := by
  simp [track, hget, checkedAdd, hwin, hcnt]

lemma track_timeout_eq {K C : Type} [DecidableEq K] (p : Path K C) (id : Identifier K)
    (now now2 : Nat) (d : Data C)
    (hget : mapGet p.hashmap id = some d)
    (hwin : ¬ elapsedNs now d.timestamp ≤ p.timeout) :
    track p id now now2 =
      (Except.error (bail ErrorType.Timeout "Connection removed because of timeout"),
       { p with hashmap := mapErase (mapErase p.hashmap id ++ [(id, d)]) id }) := by
  simp [track, hget, hwin]

lemma track_new_eq {K C : Type} [DecidableEq K] (p : Path K C) (id : Identifier K)
    (now now2 : Nat)
    (hget : mapGet p.hashmap id = none) :
    track p id now now2 =
      (Except.ok (some (Connection.mk id (Data.new now2))),
       { p with hashmap :=
           (if p.max_connections > 0 ∧ p.hashmap.length ≥ p.max_connections
            then p.hashmap.drop 1 else p.hashmap) ++ [(id, Data.new now2)] }) := by
  simp [track, hget, last_mut, getLast?_append_one]

lemma natLexLt_asymm : ∀ xs ys : List Nat, natLexLt xs ys = true → natLexLt ys xs = false := by
  intro xs
  induction xs with
  | nil =>
      intro ys h
      cases ys with
      | nil => simp [natLexLt] at h
      | cons y ys => simp [natLexLt]
  | cons x xs ih =>
      intro ys h
      cases ys with
      | nil => simp [natLexLt] at h
      | cons y ys =>
          simp only [natLexLt, Bool.or_eq_true, Bool.and_eq_true, decide_eq_true_eq] at h
          rw [Bool.eq_false_iff]
          intro hc
          simp only [natLexLt, Bool.or_eq_true, Bool.and_eq_true, decide_eq_true_eq] at hc
          rcases h with h1 | ⟨hxy, h2⟩
          · rcases hc with h3 | ⟨hyx, h4⟩
            · omega
            · omega
          · rcases hc with h3 | ⟨hyx, h4⟩
            · omega
            · have hf := ih ys h2
              rw [h4] at hf
              cases hf

lemma natLexLt_eq : ∀ xs ys : List Nat,
    natLexLt xs ys = false → natLexLt ys xs = false → xs = ys := by
  intro xs
  induction xs with
  | nil =>
      intro ys h1 h2
      cases ys with
      | nil => rfl
      | cons y ys => simp [natLexLt] at h1
  | cons x xs ih =>
      intro ys h1 h2
      cases ys with
      | nil => simp [natLexLt] at h2
      | cons y ys =>
          simp only [natLexLt, Bool.or_eq_false_iff, Bool.and_eq_false_iff,
            decide_eq_false_iff_not] at h1 h2
          have hxy : x = y := by
            rcases h1 with ⟨h1a, _⟩
            rcases h2 with ⟨h2a, _⟩
            omega
          subst hxy
          have hrest : xs = ys := by
            rcases h1 with ⟨_, h1b | h1b⟩
            · omega
            · rcases h2 with ⟨_, h2b | h2b⟩
              · omega
              · exact ih ys h1b h2b
          rw [hrest]

lemma IpAddr.ltb_asymm (x y : IpAddr) (h : IpAddr.ltb x y = true) :
    IpAddr.ltb y x = false := by
  cases x with
  | v4 a b c d =>
      cases y with
      | v4 a2 b2 c2 d2 =>
          simp only [IpAddr.ltb] at h ⊢
          exact natLexLt_asymm _ _ h
      | v6 _ _ _ _ _ _ _ _ => rfl
  | v6 a b c d e f g h0 =>
      cases y with
      | v4 _ _ _ _ => simp [IpAddr.ltb] at h
      | v6 a2 b2 c2 d2 e2 f2 g2 h2 =>
          simp only [IpAddr.ltb] at h ⊢
          exact natLexLt_asymm _ _ h

lemma IpAddr.ltb_eq (x y : IpAddr) (h1 : IpAddr.ltb x y = false)
    (h2 : IpAddr.ltb y x = false) : x = y := by
  cases x with
  | v4 a b c d =>
      cases y with
      | v4 a2 b2 c2 d2 =>
          simp only [IpAddr.ltb] at h1 h2
          have h3 := natLexLt_eq _ _ h1 h2
          simp only [List.cons.injEq, and_true] at h3
          obtain ⟨rfl, rfl, rfl, rfl⟩ := h3
          rfl
      | v6 _ _ _ _ _ _ _ _ => simp [IpAddr.ltb] at h1
  | v6 a b c d e f g h0 =>
      cases y with
      | v4 _ _ _ _ => simp [IpAddr.ltb] at h2
      | v6 a2 b2 c2 d2 e2 f2 g2 hh2 =>
          simp only [IpAddr.ltb] at h1 h2
          have h3 := natLexLt_eq _ _ h1 h2
          simp only [List.cons.injEq, and_true] at h3
          obtain ⟨rfl, rfl, rfl, rfl, rfl, rfl, rfl, rfl⟩ := h3
          rfl

lemma IpAddr.ltb_irrefl (x : IpAddr) : IpAddr.ltb x x = false := by
  cases h : IpAddr.ltb x x
  · rfl
  · have := IpAddr.ltb_asymm x x h
    rw [h] at this
    cases this

lemma tupleLt_asymm (x y : IpAddr × Nat) (h : tupleLt x y = true) :
    tupleLt y x = false := by
  simp only [tupleLt, Bool.or_eq_true, Bool.and_eq_true, decide_eq_true_eq] at h
  simp only [tupleLt, Bool.or_eq_false_iff, Bool.and_eq_false_iff,
    decide_eq_false_iff_not]
  rcases h with h1 | ⟨hfst, hsnd⟩
  · constructor
    · exact IpAddr.ltb_asymm _ _ h1
    · left
      intro he
      rw [he] at h1
      rw [IpAddr.ltb_irrefl] at h1
      cases h1
  · constructor
    · rw [hfst, IpAddr.ltb_irrefl]
    · right
      omega

lemma tupleLt_eq (x y : IpAddr × Nat) (h1 : tupleLt x y = false)
    (h2 : tupleLt y x = false) : x = y := by
  simp only [tupleLt, Bool.or_eq_false_iff, Bool.and_eq_false_iff,
    decide_eq_false_iff_not] at h1 h2
  rcases h1 with ⟨h1a, h1b⟩
  rcases h2 with ⟨h2a, h2b⟩
  have hfst : x.1 = y.1 := IpAddr.ltb_eq _ _ h1a h2a
  have hsnd : x.2 = y.2 := by
    rcases h1b with h | h
    · exact absurd hfst h
    · rcases h2b with h3 | h3
      · exact absurd hfst.symm h3
      · omega
  exact Prod.ext hfst hsnd

lemma canonPair_symm (x y : IpAddr × Nat) :
    (if tupleGt x y then (y, x) else (x, y)) = (if tupleGt y x then (x, y) else (y, x)) := by
  by_cases h1 : tupleGt x y = true
  · by_cases h2 : tupleGt y x = true
    · exfalso
      unfold tupleGt at h1 h2
      have h3 := tupleLt_asymm _ _ h1
      rw [h2] at h3
      cases h3
    · rw [if_pos h1, if_neg h2]
  · by_cases h2 : tupleGt y x = true
    · rw [if_neg h1, if_pos h2]
    · rw [if_neg h1, if_neg h2]
      unfold tupleGt at h1 h2
      rw [Bool.not_eq_true] at h1 h2
      rw [show x = y from tupleLt_eq _ _ h2 h1]

/-- C1: for every pair of addresses, every pair of ports and every key, the
identifier built from the endpoints in one order equals the identifier built
from the endpoints in the swapped order: `Identifier::new` is symmetric
under swapping the two endpoints. -/
theorem identifier_new_symmetric (K : Type) (A B : IpAddr) (p q : Nat) (k : K) :
    Identifier.new A p B q k = Identifier.new B q A p k := by
  unfold Identifier.new
  simp only [canonPair_symm (A, p) (B, q)]

lemma elapsedNs_self (now : Nat) : elapsedNs now now = 0 := by
  have h := elapsedNs_eq_sub now now (le_refl now) (by norm_num)
  simpa using h

lemma trackIter_state {K C : Type} [DecidableEq K] (id : Identifier K) (now : Nat) :
    ∀ N : Nat, 0 < N → N < U64MOD →
      trackIter (Path.new K C) id now N =
        Path.mk [(id, Data.mk none N now)] 600000000000 1000000 := by
  intro N
  induction N with
  | zero => intro h; omega
  | succ n ih =>
      intro _ hlt
      have hstep : trackIter (Path.new K C) id now (n + 1)
          = (track (trackIter (Path.new K C) id now n) id now now).2 := rfl
      cases Nat.eq_zero_or_pos n with
      | inl h0 =>
          subst h0
          rw [hstep]
          rw [show trackIter (Path.new K C) id now 0 = Path.new K C from rfl]
          rw [track_new_eq (Path.new K C) id now now rfl]
          simp [Path.new, Data.new]
      | inr hpos =>
          have hn : n < U64MOD := by omega
          rw [hstep, ih hpos hn,
            track_refresh_eq _ id now now (Data.mk none n now) (by simp [mapGet])
              (by simp [elapsedNs_self]) (by show n + 1 < U64MOD; omega)]
          simp [mapErase]

/-- C2 counterexample: an in-window `track` call on a present record does
not always increment the packet counter by one: when the counter holds the
largest `u64` value the call fails with `PacketCounterOverflow` and leaves
the counter unchanged, although the record is present and in window. -/
theorem track_inwindow_increment_cex :
    elapsedNs 150 100 ≤ overPath.timeout ∧
    (track overPath exId 150 150).1 =
      Except.error (bail ErrorType.PacketCounterOverflow "Packet counter overflow") ∧
    mapGet (track overPath exId 150 150).2.hashmap exId =
      some (Data.mk none (U64MOD - 1) 100) := by
  refine ⟨by decide, rfl, rfl⟩

/-- C2 (amended): provided the incremented counter still fits in a `u64`,
an in-window `track` call on a present record returns the record with the
packet counter incremented by exactly one and the timestamp set to `now`;
and `N` consecutive in-window `track` calls for one identifier starting
from a fresh table leave the packet counter equal to `N`, for every
positive `N` below `2 ^ 64`. -/
theorem track_inwindow_increment_amended (K C : Type) [DecidableEq K]
    (p : Path K C) (id : Identifier K) (now now2 : Nat) (d : Data C)
    (hget : mapGet p.hashmap id = some d)
    (hle : d.timestamp ≤ now)
    (hrep : now - d.timestamp < 2 ^ 63)
    (hwin : ((now - d.timestamp : Nat) : Int) ≤ p.timeout)
    (hcnt : d.packet_counter + 1 < U64MOD) :
    (track p id now now2).1 =
      Except.ok (some (Connection.mk id (Data.mk d.custom (d.packet_counter + 1) now))) ∧
    ∀ N : Nat, 0 < N → N < U64MOD →
      mapGet (trackIter (Path.new K C) id now N).hashmap id =
        some (Data.mk none N now) := by
  constructor
  · rw [track_refresh_eq p id now now2 d hget
      (by rw [elapsedNs_eq_sub _ _ hle hrep]; exact hwin) hcnt]
  · intro N h1 h2
    rw [trackIter_state id now N h1 h2]
    simp [mapGet]

/-- Witness for C2: concrete instance of the amended in-window theorem. -/
theorem track_inwindow_increment_amended_witness :
    mapGet w2Path.hashmap exId = some (Data.mk none 1 100) ∧
    ((track w2Path exId 150 150).1 =
        Except.ok (some (Connection.mk exId (Data.mk none 2 150))) ∧
      ∀ N : Nat, 0 < N → N < U64MOD →
        mapGet (trackIter (Path.new Nat Nat) exId 150 N).hashmap exId =
          some (Data.mk none N 150)) :=
  ⟨by decide,
   track_inwindow_increment_amended Nat Nat w2Path exId 150 150 (Data.mk none 1 100)
     (by decide) (by decide) (by decide) (by decide) (by decide)⟩

/-- C3 counterexample: on the fresh-insert path the source reads the clock a
second time inside `Data::new`, so the stored timestamp is that second
reading and not the `now` read at step 1 of the call: with step-1 reading 5
and insertion-time reading 7 the inserted record carries timestamp 7. -/
theorem track_fresh_insert_cex :
    (track (Path.new Nat Nat) exId 5 7).1 =
      Except.ok (some (Connection.mk exId (Data.mk none 1 7))) ∧
    (track (Path.new Nat Nat) exId 5 7).2.hashmap = [(exId, Data.mk none 1 7)] ∧
    (Data.mk (C := Nat) none 1 7).timestamp ≠ 5 := by
  refine ⟨rfl, rfl, by decide⟩

/-- C3 (amended): a `track` call on an absent identifier (in particular on
an empty table) succeeds and inserts a record with packet counter 1, custom
data absent, and timestamp equal to the clock reading taken inside
`Data::new` at insertion time (in general later than the `now` read at step
1), placed at the most recently used position. -/
theorem track_fresh_insert_amended (K C : Type) [DecidableEq K]
    (p : Path K C) (id : Identifier K) (now now2 : Nat)
    (habs : mapGet p.hashmap id = none) :
    (track p id now now2).1 = Except.ok (some (Connection.mk id (Data.mk none 1 now2))) ∧
    (track p id now now2).2.hashmap.getLast? = some ((id, Data.mk none 1 now2)) := by
  rw [track_new_eq p id now now2 habs]
  exact ⟨rfl, getLast?_append_one _ _⟩

/-- Witness for C3: concrete instance of the amended fresh-insert
theorem. -/
theorem track_fresh_insert_amended_witness :
    mapGet (Path.new Nat Nat).hashmap exId = none ∧
    ((track (Path.new Nat Nat) exId 5 7).1 =
        Except.ok (some (Connection.mk exId (Data.mk none 1 7))) ∧
      (track (Path.new Nat Nat) exId 5 7).2.hashmap.getLast? =
        some ((exId, Data.mk none 1 7))) :=
  ⟨rfl, track_fresh_insert_amended Nat Nat (Path.new Nat Nat) exId 5 7 rfl⟩

/-- C4: a `track` call on a present record whose age exceeds the timeout
fails with `Timeout`, the entry is deleted from the table, and the
connection count drops by exactly one. -/
theorem track_timeout_removes_entry (K C : Type) [DecidableEq K]
    (p : Path K C) (id : Identifier K) (now now2 : Nat) (d : Data C)
    (hnodup : (p.hashmap.map Prod.fst).Nodup)
    (hget : mapGet p.hashmap id = some d)
    (hle : d.timestamp ≤ now)
    (hrep : now - d.timestamp < 2 ^ 63)
    (hexp : p.timeout < ((now - d.timestamp : Nat) : Int)) :
    (track p id now now2).1 =
      Except.error (bail ErrorType.Timeout "Connection removed because of timeout") ∧
    mapGet (track p id now now2).2.hashmap id = none ∧
    connection_count (track p id now now2).2 + 1 = connection_count p := by
  have hwin : ¬ elapsedNs now d.timestamp ≤ p.timeout := by
    rw [elapsedNs_eq_sub _ _ hle hrep]
    exact not_le.mpr hexp
  rw [track_timeout_eq p id now now2 d hget hwin]
  have hnm : id ∉ (mapErase p.hashmap id).map Prod.fst := not_mem_keys_mapErase hnodup
  refine ⟨rfl, ?_, ?_⟩
  · show mapGet (mapErase (mapErase p.hashmap id ++ [(id, d)]) id) id = none
    rw [mapErase_append_one d hnm]
    exact mapGet_eq_none_of_not_mem hnm
  · show (mapErase (mapErase p.hashmap id ++ [(id, d)]) id).length + 1 = p.hashmap.length
    rw [mapErase_append_one d hnm]
    exact length_mapErase (mem_keys_of_mapGet hget)

/-- Witness for C4: concrete instance of the timeout-removal theorem. -/
theorem track_timeout_removes_entry_witness :
    mapGet w4Path.hashmap exId = some (Data.mk none 3 0) ∧
    ((track w4Path exId 700000000000 700000000000).1 =
        Except.error (bail ErrorType.Timeout "Connection removed because of timeout") ∧
      mapGet (track w4Path exId 700000000000 700000000000).2.hashmap exId = none ∧
      connection_count (track w4Path exId 700000000000 700000000000).2 + 1 =
        connection_count w4Path) :=
  ⟨by decide,
   track_timeout_removes_entry Nat Nat w4Path exId 700000000000 700000000000
     (Data.mk none 3 0) (by decide) (by decide) (by decide) (by decide) (by decide)⟩

/-- C5: an in-window `track` call on a record whose packet counter holds
the largest `u64` value fails with `PacketCounterOverflow` and leaves the
record in the table with counter and timestamp unchanged, only moved to the
most recently used position by the lookup. -/
theorem track_overflow_preserves_record (K C : Type) [DecidableEq K]
    (p : Path K C) (id : Identifier K) (now now2 : Nat) (d : Data C)
    (hnodup : (p.hashmap.map Prod.fst).Nodup)
    (hget : mapGet p.hashmap id = some d)
    (hmax : d.packet_counter = U64MOD - 1)
    (hle : d.timestamp ≤ now)
    (hrep : now - d.timestamp < 2 ^ 63)
    (hwin : ((now - d.timestamp : Nat) : Int) ≤ p.timeout) :
    (track p id now now2).1 =
      Except.error (bail ErrorType.PacketCounterOverflow "Packet counter overflow") ∧
    mapGet (track p id now now2).2.hashmap id = some d ∧
    (track p id now now2).2.hashmap.getLast? = some ((id, d)) ∧
    connection_count (track p id now now2).2 = connection_count p := by
  have hwin2 : elapsedNs now d.timestamp ≤ p.timeout := by
    rw [elapsedNs_eq_sub _ _ hle hrep]
    exact hwin
  have hcnt : ¬ d.packet_counter + 1 < U64MOD := by
    rw [hmax, u64mod_val]
    omega
  rw [track_overflow_eq p id now now2 d hget hwin2 hcnt]
  have hnm : id ∉ (mapErase p.hashmap id).map Prod.fst := not_mem_keys_mapErase hnodup
  refine ⟨rfl, mapGet_append_one d hnm, getLast?_append_one _ _, ?_⟩
  show (mapErase p.hashmap id ++ [(id, d)]).length = p.hashmap.length
  rw [List.length_append]
  have hlen := length_mapErase (mem_keys_of_mapGet hget)
  simpa using hlen

/-- Witness for C5: concrete instance of the overflow theorem. -/
theorem track_overflow_preserves_record_witness :
    mapGet overPath.hashmap exId = some (Data.mk none (U64MOD - 1) 100) ∧
    ((track overPath exId 150 150).1 =
        Except.error (bail ErrorType.PacketCounterOverflow "Packet counter overflow") ∧
      mapGet (track overPath exId 150 150).2.hashmap exId =
        some (Data.mk none (U64MOD - 1) 100) ∧
      (track overPath exId 150 150).2.hashmap.getLast? =
        some ((exId, Data.mk none (U64MOD - 1) 100)) ∧
      connection_count (track overPath exId 150 150).2 = connection_count overPath) :=
  ⟨by decide,
   track_overflow_preserves_record Nat Nat overPath exId 150 150
     (Data.mk none (U64MOD - 1) 100) (by decide) (by decide) (by decide) (by decide)
     (by decide) (by decide)⟩

/-- C6: with a positive connection limit, `track` keeps the table size
within the limit whenever it was within the limit before the call; and a
`track` call inserting an absent identifier into a table at or above the
limit unconditionally evicts exactly the least recently used (front) entry,
prior to and independent of any timeout check on that entry. -/
theorem track_capacity_bound_and_lru_evict (K C : Type) [DecidableEq K]
    (p : Path K C) (id : Identifier K) (now now2 : Nat)
    (hmax : 0 < p.max_connections)
    (hsize : connection_count p ≤ p.max_connections) :
    connection_count (track p id now now2).2 ≤ p.max_connections ∧
    (mapGet p.hashmap id = none → p.max_connections ≤ connection_count p →
      (track p id now now2).2.hashmap = p.hashmap.drop 1 ++ [(id, Data.new now2)]) := by
  constructor
  · cases hget : mapGet p.hashmap id with
    | none =>
        have h2 : (track p id now now2).2.hashmap =
            (if p.max_connections > 0 ∧ p.hashmap.length ≥ p.max_connections
             then p.hashmap.drop 1 else p.hashmap) ++ [(id, Data.new now2)] := by
          rw [track_new_eq p id now now2 hget]
        simp only [connection_count] at hsize ⊢
        rw [h2, List.length_append]
        by_cases hc : p.max_connections > 0 ∧ p.hashmap.length ≥ p.max_connections
        · rw [if_pos hc]
          simp only [List.length_drop, List.length_cons, List.length_nil]
          omega
        · rw [if_neg hc]
          rw [not_and_or] at hc
          simp only [List.length_cons, List.length_nil]
          omega
    | some d =>
        by_cases hwin : elapsedNs now d.timestamp ≤ p.timeout
        · by_cases hcnt : d.packet_counter + 1 < U64MOD
          · have h2 : (track p id now now2).2.hashmap =
                mapErase p.hashmap id ++ [(id, Data.mk d.custom (d.packet_counter + 1) now)] := by
              rw [track_refresh_eq p id now now2 d hget hwin hcnt]
            have hlen := length_mapErase (mem_keys_of_mapGet hget)
            simp only [connection_count] at hsize ⊢
            rw [h2, List.length_append]
            simp only [List.length_cons, List.length_nil]
            omega
          · have h2 : (track p id now now2).2.hashmap =
                mapErase p.hashmap id ++ [(id, d)] := by
              rw [track_overflow_eq p id now now2 d hget hwin hcnt]
            have hlen := length_mapErase (mem_keys_of_mapGet hget)
            simp only [connection_count] at hsize ⊢
            rw [h2, List.length_append]
            simp only [List.length_cons, List.length_nil]
            omega
        · have h2 : (track p id now now2).2.hashmap =
              mapErase (mapErase p.hashmap id ++ [(id, d)]) id := by
            rw [track_timeout_eq p id now now2 d hget hwin]
          have hmem2 : id ∈ (mapErase p.hashmap id ++ [(id, d)]).map Prod.fst := by
            simp
          have hlen1 := length_mapErase (mem_keys_of_mapGet hget)
          have hlen2 := length_mapErase hmem2
          rw [List.length_append] at hlen2
          simp only [List.length_cons, List.length_nil] at hlen2
          simp only [connection_count] at hsize ⊢
          rw [h2]
          omega
  · intro hget hfull
    have h2 : (track p id now now2).2.hashmap =
        (if p.max_connections > 0 ∧ p.hashmap.length ≥ p.max_connections
         then p.hashmap.drop 1 else p.hashmap) ++ [(id, Data.new now2)] := by
      rw [track_new_eq p id now now2 hget]
    rw [h2, if_pos ⟨hmax, hfull⟩]

/-- Witness for C6: concrete instance of the capacity theorem, a table of
capacity one already holding a fresh entry for a different identifier. -/
theorem track_capacity_bound_and_lru_evict_witness :
    0 < w6Path.max_connections ∧
    (connection_count (track w6Path exId 5 5).2 ≤ w6Path.max_connections ∧
      (mapGet w6Path.hashmap exId = none →
        w6Path.max_connections ≤ connection_count w6Path →
        (track w6Path exId 5 5).2.hashmap = w6Path.hashmap.drop 1 ++ [(exId, Data.new 5)])) :=
  ⟨by decide,
   track_capacity_bound_and_lru_evict Nat Nat w6Path exId 5 5 (by decide) (by decide)⟩

/-- C7: whenever `track` succeeds, the returned payload is a view of the
identifier just processed, the internal most-recently-used retrieval never
comes back empty, and the returned view is exactly that most recently used
entry. -/
theorem track_returns_processed_entry (K C : Type) [DecidableEq K]
    (p p2 : Path K C) (id : Identifier K) (now now2 : Nat)
    (r : Option (Connection K C))
    (h : track p id now now2 = (Except.ok r, p2)) :
    ∃ d, r = some (Connection.mk id d) ∧ last_mut p2 = some (Connection.mk id d) := by
  cases hget : mapGet p.hashmap id with
  | none =>
      rw [track_new_eq p id now now2 hget] at h
      injection h with h1 h2
      injection h1 with h1
      refine ⟨Data.new now2, h1.symm, ?_⟩
      rw [← h2]
      simp [last_mut, getLast?_append_one]
  | some d =>
      by_cases hwin : elapsedNs now d.timestamp ≤ p.timeout
      · by_cases hcnt : d.packet_counter + 1 < U64MOD
        · rw [track_refresh_eq p id now now2 d hget hwin hcnt] at h
          injection h with h1 h2
          injection h1 with h1
          refine ⟨Data.mk d.custom (d.packet_counter + 1) now, h1.symm, ?_⟩
          rw [← h2]
          simp [last_mut, getLast?_append_one]
        · rw [track_overflow_eq p id now now2 d hget hwin hcnt] at h
          injection h with h1 h2
          simp at h1
      · rw [track_timeout_eq p id now now2 d hget hwin] at h
        injection h with h1 h2
        simp at h1

/-- Witness for C7: concrete successful call on an empty table. -/
theorem track_returns_processed_entry_witness :
    ∃ d : Data Nat, some (Connection.mk exId (Data.mk none 1 5)) = some (Connection.mk exId d) ∧
      last_mut (Path.mk [(exId, Data.mk none 1 5)] 600000000000 1000000) =
        some (Connection.mk exId d) :=
  track_returns_processed_entry Nat Nat (Path.new Nat Nat)
    (Path.mk [(exId, Data.mk none 1 5)] 600000000000 1000000) exId 5 5
    (some (Connection.mk exId (Data.mk none 1 5))) rfl

lemma flushScan_eq {K C : Type} (timeout : Int) (now : Nat)
    (l : List (Identifier K × Data C)) :
    flushScan timeout now l =
      (l.filter (fun e => isExpired timeout now e.2),
       l.filter (fun e => !isExpired timeout now e.2)) := by
  induction l with
  | nil => rfl
  | cons e rest ih =>
      by_cases h : (now : Int) - (e.2.timestamp : Int) > timeout
      · simp [flushScan, isExpired, h, ih, List.filter_cons]
      · simp [flushScan, isExpired, h, ih, List.filter_cons]

lemma length_filter_not_add {α : Type} (l : List α) (f : α → Bool) :
    (l.filter f).length + (l.filter (fun a => !f a)).length = l.length := by
  induction l with
  | nil => rfl
  | cons a rest ih =>
      cases hf : f a <;> simp [List.filter_cons, hf] <;> omega

/-- C8: `flush` removes from the table and returns exactly the expired
entries, those whose age exceeds the timeout, keeping all others; the
remaining count plus the number of returned pairs equals the previous
count; and on a table holding exactly one expired entry, `flush` returns
exactly that pair and leaves the count at zero. -/
theorem flush_removes_exactly_expired (K C : Type) (p : Path K C) (now : Nat) :
    (flush p now).1 = p.hashmap.filter (fun e => isExpired p.timeout now e.2) ∧
    (flush p now).2.hashmap = p.hashmap.filter (fun e => !isExpired p.timeout now e.2) ∧
    connection_count (flush p now).2 + ((flush p now).1).length = connection_count p ∧
    (∀ (id : Identifier K) (d : Data C),
      p.hashmap = [(id, d)] → p.timeout < (now : Int) - (d.timestamp : Int) →
      (flush p now).1 = [(id, d)] ∧ connection_count (flush p now).2 = 0) := by
  have h1 : (flush p now).1 = p.hashmap.filter (fun e => isExpired p.timeout now e.2) := by
    show (flushScan p.timeout now p.hashmap).1 = _
    rw [flushScan_eq]
  have h2 : (flush p now).2.hashmap =
      p.hashmap.filter (fun e => !isExpired p.timeout now e.2) := by
    show (flushScan p.timeout now p.hashmap).2 = _
    rw [flushScan_eq]
  refine ⟨h1, h2, ?_, ?_⟩
  · show (flush p now).2.hashmap.length + ((flush p now).1).length = p.hashmap.length
    rw [h1, h2]
    exact (Nat.add_comm _ _).trans (length_filter_not_add p.hashmap _)
  · intro id d hmap hexp
    constructor
    · rw [h1, hmap]
      simp [isExpired, hexp, List.filter_cons]
    · show (flush p now).2.hashmap.length = 0
      rw [h2, hmap]
      simp [isExpired, hexp, List.filter_cons]

/-- Witness for C8: a one-entry table whose record is expired. -/
theorem flush_removes_exactly_expired_witness :
    (flush w4Path 700000000000).1 = [(exId, Data.mk none 3 0)] ∧
    connection_count (flush w4Path 700000000000).2 = 0 :=
  (flush_removes_exactly_expired Nat Nat w4Path 700000000000).2.2.2 exId
    (Data.mk none 3 0) rfl (by decide)

/-- C9: the source does not guard the elapsed time computation against a
clock reading behind the stored timestamp: the wrapping `u64` subtraction
and the signed reinterpretation turn a one-nanosecond clock regression into
an elapsed time of minus one nanosecond, which passes the timeout test, so
the record is refreshed as in-window, its timestamp even moving backwards,
instead of raising `Internal` or clamping the elapsed time to zero. -/
theorem track_clock_regression_wraps :
    elapsedNs 99 100 = -1 ∧
    (track skewPath exId 99 99).1 =
      Except.ok (some (Connection.mk exId (Data.mk none 2 99))) ∧
    mapGet (track skewPath exId 99 99).2.hashmap exId = some (Data.mk none 2 99) := by
  refine ⟨by decide, rfl, rfl⟩

/-- C10: the error taxonomy includes the kind `Other`, distinct from every
other kind, and the foreign error adapter converts any foreign error into a
`PathError` tagged `Other` carrying the foreign description and the
original error as the underlying cause. -/
theorem error_other_adapter :
    (∀ e : ForeignError,
      (PathError.fromForeign e).code = ErrorType.Other ∧
      (PathError.fromForeign e).description = e.description ∧
      (PathError.fromForeign e).cause = some e) ∧
    ErrorType.Other ≠ ErrorType.PacketCounterOverflow ∧
    ErrorType.Other ≠ ErrorType.Timeout ∧
    ErrorType.Other ≠ ErrorType.Internal := by
  exact ⟨fun e => ⟨rfl, rfl, rfl⟩, by decide, by decide, by decide⟩

end ConnTrack
